import Mathlib

/-!
Verification of the gossip quorum simulator (src/main.rs).

The Rust program simulates a push-pull gossip protocol over `n` nodes that
converge on quorum knowledge for a single proposal (id 0).  We give a shallow
embedding of its data model and operations:

* `BTreeMap<usize, BTreeSet<usize>>` (the `VoteMap` / `VoteDiff` aliases) is
  embedded as `NatSetMap`: a lookup function `Nat → Option (Finset Nat)`
  together with its finite key set `supp` (so that map emptiness, which the
  Rust code tests via `is_empty`, stays decidable).  `VoteInfo` is a
  single-field wrapper around a `BTreeSet<usize>` and is flattened away.
* per-entry loops over a `BTreeMap` (each touching a distinct key exactly
  once) are embedded as the corresponding pointwise update of the lookup
  function.
* randomness is embedded as an explicit stream of draws: `choose_partner`
  takes the stream (plus fuel, since its rejection sampling is a loop), and
  the simulation round is parameterised by the function giving each node its
  chosen partner for that round, quantifying over all random outcomes.
-/

namespace Gossip

/-- Finite map from ids to finite id sets, modelling the Rust
`BTreeMap<usize, BTreeSet<usize>>` (`VoteDiff`) and, with the one-field
`VoteInfo` wrapper flattened, `BTreeMap<usize, VoteInfo>` (`VoteMap`).
`look` is entry lookup, `supp` the key set. -/
structure NatSetMap where
  look : Nat → Option (Finset Nat)
  supp : Finset Nat
  mem_supp : ∀ p, p ∈ supp ↔ (look p).isSome = true

/-- The empty map (`BTreeMap::new`). -/
def NatSetMap.empty : NatSetMap where
  look := fun _ => none
  supp := ∅
  mem_supp := by intro p; simp

/-- Entry lookup defaulting to the empty set (the `entry(..).or_insert_with`
view of an entry that is about to be extended). -/
def NatSetMap.getSet (m : NatSetMap) (p : Nat) : Finset Nat :=
  (m.look p).getD ∅

/-- Overwrite (or create) the entry at key `p` with the set `s`. -/
def NatSetMap.setEntry (m : NatSetMap) (p : Nat) (s : Finset Nat) : NatSetMap where
  look := fun q => if q = p then some s else m.look q
  supp := insert p m.supp
  mem_supp := by
    intro q
    by_cases h : q = p
    · simp [h]
    · simp [h, m.mem_supp]

/-- Per-key union of `d` into `m`: for every entry `(p, vs)` of `d`,
union `vs` into the existing-or-fresh entry of `m` at `p`.  This is the
loop body shared by `Node::apply_diff` and `add_updates` in the source
(`entry(vote_id).or_insert_with(..).extend(voters)`), embedded pointwise. -/
def NatSetMap.merge (m d : NatSetMap) : NatSetMap where
  look := fun p =>
    match d.look p with
    | none => m.look p
    | some vs => some (m.getSet p ∪ vs)
  supp := m.supp ∪ d.supp
  mem_supp := by
    intro p
    rcases h : d.look p with _ | vs
    · have hd : p ∉ d.supp := by simp [d.mem_supp, h]
      simp [h, hd, m.mem_supp]
    · have hd : p ∈ d.supp := by simp [d.mem_supp, h]
      simp [h, hd]

theorem NatSetMap.look_injective {m1 m2 : NatSetMap} (h : m1.look = m2.look) :
    m1 = m2 := by
  obtain ⟨l1, s1, h1⟩ := m1
  obtain ⟨l2, s2, h2⟩ := m2
  cases h
  have hs : s1 = s2 := Finset.ext fun p => by rw [h1, h2]
  cases hs
  rfl

@[simp] theorem NatSetMap.empty_look (p : Nat) : NatSetMap.empty.look p = none := rfl

@[simp] theorem NatSetMap.empty_getSet (p : Nat) : NatSetMap.empty.getSet p = ∅ := rfl

theorem NatSetMap.merge_look (m d : NatSetMap) (p : Nat) :
    (m.merge d).look p =
      match d.look p with
      | none => m.look p
      | some vs => some (m.getSet p ∪ vs) := rfl

/-- Rust `has_quorum(k, n)`: strict majority test `2 * k > n`. -/
def has_quorum (k n : Nat) : Bool := decide (2 * k > n)

/-- Rust `Node`: id, universe size, and the vote map. -/
structure Node where
  id : Nat
  num_nodes : Nat
  votes : NatSetMap

/-- Rust `Node::new`. -/
def Node.new (id num_nodes : Nat) : Node :=
  { id := id, num_nodes := num_nodes, votes := NatSetMap.empty }

/-- Rust `Node::vote_for`: insert our own id into the proposal's voter set. -/
def Node.vote_for (nd : Node) (vote_id : Nat) : Node :=
  { nd with votes := nd.votes.setEntry vote_id (insert nd.id (nd.votes.getSet vote_id)) }

/-- Rust `Node::has_voted_for`: membership of our id in the recorded voter set
(false when the proposal is unknown). -/
def Node.has_voted_for (nd : Node) (vote_id : Nat) : Bool :=
  ((nd.votes.look vote_id).map fun voters => decide (nd.id ∈ voters)).getD false

/-- Rust `Node::has_quorum_for`: quorum test on the recorded voter set
(false when the proposal is unknown). -/
def Node.has_quorum_for (nd : Node) (vote_id : Nat) : Bool :=
  ((nd.votes.look vote_id).map fun voters => has_quorum voters.card nd.num_nodes).getD false

/-- Rust `Node::apply_diff`: union every entry of the diff into the vote map. -/
def Node.apply_diff (nd : Node) (diff : NatSetMap) : Node :=
  { nd with votes := nd.votes.merge diff }

theorem Node.eq_of_fields {a b : Node} (h1 : a.id = b.id)
    (h2 : a.num_nodes = b.num_nodes) (h3 : a.votes.look = b.votes.look) :
    a = b := by
  obtain ⟨i1, n1, v1⟩ := a
  obtain ⟨i2, n2, v2⟩ := b
  cases h1
  cases h2
  cases NatSetMap.look_injective h3
  rfl

/-- One draw of `rng.gen_range(0, n)`, embedded as the next value of an
arbitrary stream of naturals reduced into the range `[0, n)`. -/
def gen_range (draws : Nat → Nat) (cursor n : Nat) : Nat :=
  draws cursor % n

/-- Rust `choose_partner`: rejection-sample draws in `[0, n)` until one differs
from `our_id`.  The Rust loop may run unboundedly, so the embedding takes
fuel; `none` means the loop has not returned within the given fuel. -/
def choose_partner (our_id n : Nat) (draws : Nat → Nat) :
    Nat → Nat → Option Nat
  | 0, _ => none
  | fuel + 1, cursor =>
    let p := gen_range draws cursor n
    if p ≠ our_id then some p else choose_partner our_id n draws fuel (cursor + 1)

/-- The per-proposal content of `compute_push_gossip(n1, n2)`: the entry the
collected diff holds at `p`.  Mirrors the `filter_map` body: sender entries
only, skip proposals on which the receiver has quorum, send the set
difference of voter sets, and drop empty differences. -/
def push_entry (n1 n2 : Node) (p : Nat) : Option (Finset Nat) :=
  match n1.votes.look p with
  | none => none
  | some voters =>
    if n2.has_quorum_for p then none
    else
      let new_voters :=
        match n2.votes.look p with
        | some existing => voters \ existing
        | none => voters
      if new_voters = ∅ then none else some new_voters

/-- The diff collected by `compute_push_gossip(n1, n2)` before the final
emptiness test. -/
def push_diff (n1 n2 : Node) : NatSetMap where
  look := push_entry n1 n2
  supp := n1.votes.supp.filter fun p => (push_entry n1 n2 p).isSome = true
  mem_supp := by
    intro p
    simp only [Finset.mem_filter, n1.votes.mem_supp]
    constructor
    · rintro ⟨_, h⟩; exact h
    · intro h
      refine ⟨?_, h⟩
      unfold push_entry at h
      rcases hl : n1.votes.look p with _ | voters
      · rw [hl] at h; simp at h
      · simp [hl]

/-- Rust `compute_push_gossip(n1, n2)`: `Some` of the collected diff when it is
non-empty, `None` otherwise. -/
def compute_push_gossip (n1 n2 : Node) : Option NatSetMap :=
  if (push_diff n1 n2).supp = ∅ then none else some (push_diff n1 n2)

/-- Rust `compute_push_pull_gossip(n1, n2)`: the two one-directional pushes. -/
def compute_push_pull_gossip (n1 n2 : Node) : Option NatSetMap × Option NatSetMap :=
  (compute_push_gossip n2 n1, compute_push_gossip n1 n2)

/-- The per-round update buffer `BTreeMap<usize, VoteDiff>`, embedded as a
total function with the empty diff for absent node ids (the source only
ever reads an absent entry through `or_insert_with(VoteDiff::new)` or skips
it, so absent and empty entries are observationally the same). -/
def Updates : Type := Nat → NatSetMap

/-- Rust `add_updates`: union a diff into the buffer entry of node `node`. -/
def add_updates (updates : Updates) (node : Nat) (diff : NatSetMap) : Updates :=
  fun j => if j = node then (updates j).merge diff else updates j

/-- Rust `construct_voting_schedule(k, voting_steps)`: `voting_steps` entries of
`k / voting_steps` voters each, the last round absorbing the remainder.
The `BTreeMap<usize, usize>` result is embedded as its (key-sorted)
association list. -/
def construct_voting_schedule (k voting_steps : Nat) : List (Nat × Nat) :=
  let per_step := k / voting_steps
  (List.range voting_steps).map fun i =>
    (i, if i = voting_steps - 1 then k - (voting_steps - 1) * per_step else per_step)

/-- Lookup `BTreeMap::get` on an embedded schedule. -/
def schedule_get (sched : List (Nat × Nat)) (r : Nat) : Option Nat :=
  (sched.find? fun e => e.1 == r).map Prod.snd

/-- The activation phase: walk the node list in order and have the first
`quota` nodes that have not yet voted for proposal 0 vote for it
(`filter(!has_voted_for(0)).take(num_voters)` then `vote_for(0)`). -/
def activate : List Node → Nat → List Node
  | [], _ => []
  | nds, 0 => nds
  | nd :: rest, quota + 1 =>
    if nd.has_voted_for 0 then nd :: activate rest (quota + 1)
    else nd.vote_for 0 :: activate rest quota

/-- Dummy node used only as the out-of-range default of list indexing
(the Rust code indexes with ids that are always in range). -/
def dummy : Node := Node.new 0 0

/-- The body of the exchange loop for node index `i`: gossip with the
chosen partner and buffer both directional diffs, counting each `Some`
diff as one exchange. -/
def exchange_step (nodes : List Node) (partners : Nat → Nat)
    (acc : Updates × Nat) (i : Nat) : Updates × Nat :=
  let node := nodes.getD i dummy
  let partner_id := partners i
  let partner := nodes.getD partner_id dummy
  let pp := compute_push_pull_gossip node partner
  let acc1 :=
    match pp.1 with
    | some d => (add_updates acc.1 i d, acc.2 + 1)
    | none => acc
  match pp.2 with
  | some d => (add_updates acc1.1 partner_id d, acc1.2 + 1)
  | none => acc1

/-- The exchange phase: every node (in index order) gossips with its chosen
partner; returns the buffered updates and the number of non-empty
directional diffs. -/
def gossip_exchange (nodes : List Node) (partners : Nat → Nat) : Updates × Nat :=
  (List.range nodes.length).foldl (exchange_step nodes partners)
    (fun _ => NatSetMap.empty, 0)

/-- The commit phase: apply every buffered diff to its target node. -/
def commit_updates (nodes : List Node) (updates : Updates) : List Node :=
  (List.range nodes.length).map fun i => (nodes.getD i dummy).apply_diff (updates i)

/-- Simulation parameters (`Params`). -/
structure Params where
  n : Nat
  k : Nat
  voting_steps : Nat

/-- The mutable state of `run_simulation`'s loop. -/
structure SimState where
  nodes : List Node
  num_iterations : Nat
  num_exchanges : Nat

/-- The initial node population `(0..n).map(|i| Node::new(i, n))`. -/
def init_nodes (n : Nat) : List Node :=
  (List.range n).map fun i => Node.new i n

/-- One iteration of the simulation loop: activation per schedule, exchange
against the post-activation (pre-exchange) snapshot, atomic commit, and
the iteration-count increment. -/
def sim_round (sched : List (Nat × Nat)) (partners : Nat → Nat)
    (s : SimState) : SimState :=
  let nodes1 :=
    match schedule_get sched s.num_iterations with
    | some quota => activate s.nodes quota
    | none => s.nodes
  let ex := gossip_exchange nodes1 partners
  { nodes := commit_updates nodes1 ex.1
    num_iterations := s.num_iterations + 1
    num_exchanges := s.num_exchanges + ex.2 }

/-- The loop guard: every node holds quorum on proposal 0. -/
def all_quorum (nodes : List Node) : Bool :=
  nodes.all fun nd => nd.has_quorum_for 0

/-- The state of `run_simulation(params, ..)` after `t` loop iterations,
with `pseq r i` the partner chosen by node `i` in round `r` (quantifying
over `pseq` ranges over all random streams). -/
def run_sim_state (params : Params) (pseq : Nat → Nat → Nat) : Nat → SimState
  | 0 => ⟨init_nodes params.n, 0, 0⟩
  | t + 1 =>
    sim_round (construct_voting_schedule params.k params.voting_steps)
      (pseq t) (run_sim_state params pseq t)

/-- Termination of the `while` loop: some iteration count satisfies the
guard. -/
def sim_terminates (params : Params) (pseq : Nat → Nat → Nat) : Prop :=
  ∃ t, all_quorum ((run_sim_state params pseq t).nodes) = true

/-- The statistics sum `nodes.iter().map(|node| node.votes[&0].voters.len()).sum()`,
with `none` marking the panic of indexing a missing entry. -/
def total_votes_collected : List Node → Option Nat
  | [] => some 0
  | nd :: rest =>
    match nd.votes.look 0, total_votes_collected rest with
    | some voters, some s => some (voters.card + s)
    | _, _ => none

/-- Rust `average_votes_held = total_votes_collected as f64 / n as f64`, embedded
over the rationals. -/
def average_votes_held (nodes : List Node) (n : Nat) : Option ℚ :=
  (total_votes_collected nodes).map fun s => (s : ℚ) / (n : ℚ)

/-! ### Basic lemmas about the map and node operations -/

/-- How `merge` combines the two lookups of a single key. -/
def mergeOpt (o1 o2 : Option (Finset Nat)) : Option (Finset Nat) :=
  match o2 with
  | none => o1
  | some vs => some (o1.getD ∅ ∪ vs)

@[simp] theorem mergeOpt_none (o : Option (Finset Nat)) : mergeOpt o none = o := rfl

theorem NatSetMap.merge_look_mergeOpt (m d : NatSetMap) (p : Nat) :
    (m.merge d).look p = mergeOpt (m.look p) (d.look p) := by
  rcases h : d.look p with _ | vs <;> simp [NatSetMap.merge, mergeOpt, h, NatSetMap.getSet]

@[simp] theorem NatSetMap.merge_getSet (m d : NatSetMap) (p : Nat) :
    (m.merge d).getSet p = m.getSet p ∪ d.getSet p := by
  rcases h : d.look p with _ | vs <;>
    simp [NatSetMap.getSet, NatSetMap.merge_look_mergeOpt, mergeOpt, h]

theorem Node.vote_for_look (nd : Node) (v p : Nat) :
    (nd.vote_for v).votes.look p =
      if p = v then some (insert nd.id (nd.votes.getSet v)) else nd.votes.look p := rfl

theorem Node.vote_for_getSet (nd : Node) (v p : Nat) :
    (nd.vote_for v).votes.getSet p =
      if p = v then insert nd.id (nd.votes.getSet v) else nd.votes.getSet p := by
  rw [NatSetMap.getSet, Node.vote_for_look]
  split <;> simp [NatSetMap.getSet]

theorem Node.apply_diff_look (nd : Node) (d : NatSetMap) (p : Nat) :
    (nd.apply_diff d).votes.look p = mergeOpt (nd.votes.look p) (d.look p) :=
  NatSetMap.merge_look_mergeOpt nd.votes d p

@[simp] theorem Node.apply_diff_getSet (nd : Node) (d : NatSetMap) (p : Nat) :
    (nd.apply_diff d).votes.getSet p = nd.votes.getSet p ∪ d.getSet p :=
  NatSetMap.merge_getSet nd.votes d p

@[simp] theorem Node.vote_for_id (nd : Node) (v : Nat) : (nd.vote_for v).id = nd.id := rfl

@[simp] theorem Node.vote_for_num_nodes (nd : Node) (v : Nat) :
    (nd.vote_for v).num_nodes = nd.num_nodes := rfl

@[simp] theorem Node.apply_diff_id (nd : Node) (d : NatSetMap) :
    (nd.apply_diff d).id = nd.id := rfl

@[simp] theorem Node.apply_diff_num_nodes (nd : Node) (d : NatSetMap) :
    (nd.apply_diff d).num_nodes = nd.num_nodes := rfl

@[simp] theorem Node.new_look (i n p : Nat) : (Node.new i n).votes.look p = none := rfl

@[simp] theorem Node.new_getSet (i n p : Nat) : (Node.new i n).votes.getSet p = ∅ := rfl

theorem Node.has_quorum_for_iff (nd : Node) (p : Nat) :
    nd.has_quorum_for p = true ↔
      ∃ vs, nd.votes.look p = some vs ∧ 2 * vs.card > nd.num_nodes := by
  rcases h : nd.votes.look p with _ | vs <;>
    simp [Node.has_quorum_for, has_quorum, h]

theorem Node.has_quorum_for_isSome {nd : Node} {p : Nat}
    (h : nd.has_quorum_for p = true) : (nd.votes.look p).isSome = true := by
  rcases (nd.has_quorum_for_iff p).mp h with ⟨vs, hvs, _⟩
  simp [hvs]

/-- C7: `has_quorum(k, n)` returns true exactly when `2 * k > n`, for all
non-negative integers `k` and `n`. -/
theorem has_quorum_iff (k n : Nat) : has_quorum k n = true ↔ 2 * k > n := by
  simp [has_quorum]

/-- C9 counterexample: called with `population = 0`, `has_quorum` does not
fail fast; it silently returns a boolean (here, `true` at `voter_count = 1`). -/
theorem has_quorum_population_zero_returns : has_quorum 1 0 = true := by decide

/-- C9 amended: for `population = 0`, `has_quorum` silently returns the
boolean `2 * k > 0`, i.e. true exactly when the voter count is positive;
no degenerate-case failure is signalled. -/
theorem has_quorum_population_zero_eq (k : Nat) : has_quorum k 0 = decide (0 < k) := by
  unfold has_quorum
  rw [decide_eq_decide]
  omega

/-- C6: `apply_diff` is idempotent and commutative: applying a diff twice
equals applying it once, and two diffs applied in either order produce the
same node state. -/
theorem apply_diff_idempotent_commutative (nd : Node) (d d1 d2 : NatSetMap) :
    (nd.apply_diff d).apply_diff d = nd.apply_diff d ∧
      (nd.apply_diff d1).apply_diff d2 = (nd.apply_diff d2).apply_diff d1 := by
  constructor
  · refine Node.eq_of_fields rfl rfl ?_
    funext p
    rcases h : d.look p with _ | vs <;>
      simp [Node.apply_diff_look, mergeOpt, h, NatSetMap.getSet, Finset.union_assoc]
  · refine Node.eq_of_fields rfl rfl ?_
    funext p
    rcases h1 : d1.look p with _ | vs1 <;> rcases h2 : d2.look p with _ | vs2 <;>
      simp [Node.apply_diff_look, mergeOpt, h1, h2, NatSetMap.getSet,
        Finset.union_right_comm, Finset.union_comm, Finset.union_assoc,
        Finset.union_left_comm]

/-! ### The push-gossip characterization -/

/-- Closed form of the per-proposal diff entry: present exactly when the
receiver lacks quorum and the voter-set difference is non-empty, in which
case it is that difference. -/
theorem push_entry_eq (n1 n2 : Node) (p : Nat) :
    push_entry n1 n2 p =
      if n2.has_quorum_for p = true ∨ n1.votes.getSet p \ n2.votes.getSet p = ∅
      then none
      else some (n1.votes.getSet p \ n2.votes.getSet p) := by
  unfold push_entry
  rcases h1 : n1.votes.look p with _ | voters
  · simp [NatSetMap.getSet, h1]
  · rcases hq : n1.votes.look p with _ | voters2
    · rw [h1] at hq; cases hq
    · rw [h1] at hq
      injection hq with hv
      subst hv
      by_cases h2 : n2.has_quorum_for p = true
      · simp [h2]
      · rcases hl : n2.votes.look p with _ | existing <;>
          simp [NatSetMap.getSet, h1, hl, h2]

/-- A diff entry only ever holds voter ids the sender knows. -/
theorem push_entry_subset {n1 n2 : Node} {p : Nat} {s : Finset Nat}
    (h : push_entry n1 n2 p = some s) : s ⊆ n1.votes.getSet p := by
  rw [push_entry_eq] at h
  split at h
  · cases h
  · injection h with hs
    subst hs
    exact Finset.sdiff_subset.trans (le_refl _)

theorem compute_push_gossip_eq_none_iff (n1 n2 : Node) :
    compute_push_gossip n1 n2 = none ↔ ∀ q, push_entry n1 n2 q = none := by
  unfold compute_push_gossip
  constructor
  · intro h q
    split at h
    case isTrue he =>
      rcases hs : push_entry n1 n2 q with _ | s
      · rfl
      · exfalso
        have hq : q ∈ (push_diff n1 n2).supp := by
          rw [(push_diff n1 n2).mem_supp]
          show (push_entry n1 n2 q).isSome = true
          simp [hs]
        rw [he] at hq
        simp at hq
    case isFalse => cases h
  · intro h
    have he : (push_diff n1 n2).supp = ∅ := by
      rw [Finset.eq_empty_iff_forall_not_mem]
      intro q hq
      rw [(push_diff n1 n2).mem_supp] at hq
      have : (push_entry n1 n2 q).isSome = true := hq
      rw [h q] at this
      simp at this
    simp [he]

theorem compute_push_gossip_some_look {n1 n2 : Node} {d : NatSetMap}
    (h : compute_push_gossip n1 n2 = some d) : d.look = push_entry n1 n2 := by
  unfold compute_push_gossip at h
  split at h
  · cases h
  · injection h with hd
    subst hd
    rfl

/-- The entry the result of `compute_push_gossip(n1, n2)` carries for
proposal `p` (`none` both for a missing entry and for a `None` result). -/
def gossip_entry (n1 n2 : Node) (p : Nat) : Option (Finset Nat) :=
  match compute_push_gossip n1 n2 with
  | none => none
  | some d => d.look p

theorem gossip_entry_eq_push_entry (n1 n2 : Node) (p : Nat) :
    gossip_entry n1 n2 p = push_entry n1 n2 p := by
  unfold gossip_entry
  rcases h : compute_push_gossip n1 n2 with _ | d
  · exact ((compute_push_gossip_eq_none_iff n1 n2).mp h p).symm
  · show d.look p = push_entry n1 n2 p
    rw [compute_push_gossip_some_look h]

/-- C3: for every sender `n1`, receiver `n2` and proposal `p`, the diff of
`compute_push_gossip(n1, n2)` holds an entry for `p` exactly when `n2` does
not already hold quorum on `p` and the voter-set difference
(senders voters minus receivers voters) is non-empty; any entry equals that
difference; and the function returns `None` exactly when every such
difference (for proposals without receiver quorum) is empty. -/
theorem compute_push_gossip_characterization (n1 n2 : Node) (p : Nat) :
    (gossip_entry n1 n2 p = some (n1.votes.getSet p \ n2.votes.getSet p)
      ∨ gossip_entry n1 n2 p = none)
    ∧ ((gossip_entry n1 n2 p).isSome = true
        ↔ n2.has_quorum_for p = false
            ∧ n1.votes.getSet p \ n2.votes.getSet p ≠ ∅)
    ∧ (compute_push_gossip n1 n2 = none
        ↔ ∀ q, n2.has_quorum_for q = false →
            n1.votes.getSet q \ n2.votes.getSet q = ∅) := by
  refine ⟨?_, ?_, ?_⟩
  · rw [gossip_entry_eq_push_entry, push_entry_eq]
    split
    · right; rfl
    · left; rfl
  · rw [gossip_entry_eq_push_entry, push_entry_eq]
    split
    case isTrue h =>
      simp only [Option.isSome_none]
      constructor
      · intro hc; cases hc
      · rintro ⟨hq, hne⟩
        rcases h with h | h
        · rw [hq] at h; cases h
        · exact absurd h hne
    case isFalse h =>
      push_neg at h
      simp only [Option.isSome_some, true_iff]
      exact ⟨Bool.not_eq_true _ ▸ Bool.eq_false_iff.mpr (fun hx => h.1 hx), h.2⟩
  · rw [compute_push_gossip_eq_none_iff]
    constructor
    · intro h q hq
      have := h q
      rw [push_entry_eq] at this
      split at this
      case isTrue hc =>
        rcases hc with hc | hc
        · rw [hq] at hc; cases hc
        · exact hc
      case isFalse => cases this
    · intro h q
      rw [push_entry_eq]
      split
      · rfl
      case isFalse hc =>
        push_neg at hc
        exact absurd (h q (Bool.eq_false_iff.mpr (fun hx => hc.1 hx))) hc.2

/-- Closed instance of the C3 characterization at concrete nodes: a voting
sender, a fresh receiver, proposal 0. -/
theorem compute_push_gossip_characterization_witness :
    (gossip_entry ((Node.new 0 3).vote_for 0) (Node.new 1 3) 0
        = some (((Node.new 0 3).vote_for 0).votes.getSet 0 \ (Node.new 1 3).votes.getSet 0)
      ∨ gossip_entry ((Node.new 0 3).vote_for 0) (Node.new 1 3) 0 = none)
    ∧ ((gossip_entry ((Node.new 0 3).vote_for 0) (Node.new 1 3) 0).isSome = true
        ↔ (Node.new 1 3).has_quorum_for 0 = false
            ∧ ((Node.new 0 3).vote_for 0).votes.getSet 0 \ (Node.new 1 3).votes.getSet 0 ≠ ∅)
    ∧ (compute_push_gossip ((Node.new 0 3).vote_for 0) (Node.new 1 3) = none
        ↔ ∀ q, (Node.new 1 3).has_quorum_for q = false →
            ((Node.new 0 3).vote_for 0).votes.getSet q \ (Node.new 1 3).votes.getSet q = ∅) :=
  compute_push_gossip_characterization ((Node.new 0 3).vote_for 0) (Node.new 1 3) 0

/-! ### The two-phase round structure -/

/-- Left fold of `mergeOpt` over a list of per-proposal diff entries. -/
def mergeOptList (o : Option (Finset Nat)) (l : List (Option (Finset Nat))) :
    Option (Finset Nat) :=
  l.foldl mergeOpt o

/-- The diff entries buffered against node `j` for proposal `p` during one
exchange phase, listed in the order the loop produces them and computed
entirely from the pre-round node states `nodes`: iteration `i` contributes
the pull diff (partner pushes to `i`) when `i = j` and the push diff
(`i` pushes to its partner) when `partners i = j`. -/
def snapshot_contribs (nodes : List Node) (partners : Nat → Nat) (j p : Nat) :
    List (Option (Finset Nat)) :=
  (List.range nodes.length).flatMap fun i =>
    [if j = i then push_entry (nodes.getD (partners i) dummy) (nodes.getD i dummy) p
      else none,
     if j = partners i then push_entry (nodes.getD i dummy) (nodes.getD (partners i) dummy) p
      else none]

theorem add_updates_look (u : Updates) (node : Nat) (diff : NatSetMap) (j p : Nat) :
    ((add_updates u node diff) j).look p =
      if j = node then mergeOpt ((u j).look p) (diff.look p) else (u j).look p := by
  unfold add_updates
  split
  · exact NatSetMap.merge_look_mergeOpt _ _ _
  · rfl

theorem mergeOpt_ite (base : Option (Finset Nat)) (c : Prop) [Decidable c]
    (e : Option (Finset Nat)) :
    (if c then mergeOpt base e else base) = mergeOpt base (if c then e else none) := by
  split <;> simp [mergeOpt]

theorem exchange_step_look (nodes : List Node) (partners : Nat → Nat)
    (acc : Updates × Nat) (i j p : Nat) :
    ((exchange_step nodes partners acc i).1 j).look p =
      mergeOpt
        (mergeOpt ((acc.1 j).look p)
          (if j = i
            then push_entry (nodes.getD (partners i) dummy) (nodes.getD i dummy) p
            else none))
        (if j = partners i
          then push_entry (nodes.getD i dummy) (nodes.getD (partners i) dummy) p
          else none) := by
  unfold exchange_step compute_push_pull_gossip
  dsimp only
  rcases h1 : compute_push_gossip (nodes.getD (partners i) dummy) (nodes.getD i dummy)
    with _ | d1
  · rcases h2 : compute_push_gossip (nodes.getD i dummy) (nodes.getD (partners i) dummy)
      with _ | d2
    · have e1 := (compute_push_gossip_eq_none_iff _ _).mp h1
      have e2 := (compute_push_gossip_eq_none_iff _ _).mp h2
      simp only [e1, e2, ite_self, mergeOpt_none]
    · have e1 := (compute_push_gossip_eq_none_iff _ _).mp h1
      have hl2 := compute_push_gossip_some_look h2
      simp only [add_updates_look, hl2, e1, ite_self, mergeOpt_none, mergeOpt_ite]
  · rcases h2 : compute_push_gossip (nodes.getD i dummy) (nodes.getD (partners i) dummy)
      with _ | d2
    · have hl1 := compute_push_gossip_some_look h1
      have e2 := (compute_push_gossip_eq_none_iff _ _).mp h2
      simp only [add_updates_look, hl1, e2, ite_self, mergeOpt_none, mergeOpt_ite]
    · have hl1 := compute_push_gossip_some_look h1
      have hl2 := compute_push_gossip_some_look h2
      simp only [add_updates_look, hl1, hl2, mergeOpt_ite]

theorem foldl_exchange_look (nodes : List Node) (partners : Nat → Nat)
    (l : List Nat) :
    ∀ (acc : Updates × Nat) (j p : Nat),
      ((l.foldl (exchange_step nodes partners) acc).1 j).look p =
        mergeOptList ((acc.1 j).look p)
          (l.flatMap fun i =>
            [if j = i
              then push_entry (nodes.getD (partners i) dummy) (nodes.getD i dummy) p
              else none,
             if j = partners i
              then push_entry (nodes.getD i dummy) (nodes.getD (partners i) dummy) p
              else none]) := by
  induction l with
  | nil => intro acc j p; rfl
  | cons i l ih =>
    intro acc j p
    rw [List.foldl_cons, ih, exchange_step_look]
    rfl

/-- The buffered updates of an exchange phase, characterised entry by entry
from the pre-round snapshot alone. -/
theorem gossip_exchange_look (nodes : List Node) (partners : Nat → Nat) (j p : Nat) :
    ((gossip_exchange nodes partners).1 j).look p =
      mergeOptList none (snapshot_contribs nodes partners j p) := by
  unfold gossip_exchange snapshot_contribs
  rw [foldl_exchange_look]
  rfl

theorem commit_updates_getD (nodes : List Node) (u : Updates) (j : Nat)
    (hj : j < nodes.length) :
    (commit_updates nodes u).getD j dummy = (nodes.getD j dummy).apply_diff (u j) := by
  unfold commit_updates
  rw [List.getD_eq_getElem?_getD, List.getElem?_map, List.getElem?_range hj]
  rfl

/-- C2: in every round, all push-pull diffs are computed from the node
states as they stood at the start of the exchange phase, and every buffered
diff is applied to its target only in the commit phase: each buffered entry
equals the merge of push-gossip entries computed purely from the pre-round
snapshot `nodes`, and the committed node `j` is exactly the pre-round node
`j` with its buffered diff applied afterwards. -/
theorem sim_round_two_phase (nodes : List Node) (partners : Nat → Nat)
    (j p : Nat) (hj : j < nodes.length) :
    ((gossip_exchange nodes partners).1 j).look p =
      mergeOptList none (snapshot_contribs nodes partners j p)
    ∧ (commit_updates nodes (gossip_exchange nodes partners).1).getD j dummy =
      (nodes.getD j dummy).apply_diff ((gossip_exchange nodes partners).1 j) :=
  ⟨gossip_exchange_look nodes partners j p,
   commit_updates_getD nodes (gossip_exchange nodes partners).1 j hj⟩

/-- A concrete two-node population for closed instances: node 0 has voted,
node 1 is fresh. -/
def two_nodes : List Node := [(Node.new 0 2).vote_for 0, Node.new 1 2]

/-- A concrete partner assignment pairing nodes 0 and 1. -/
def two_partners : Nat → Nat := fun i => 1 - i

/-- Closed instance of the C2 two-phase characterization on a concrete
two-node exchange. -/
theorem sim_round_two_phase_witness :
    ((gossip_exchange two_nodes two_partners).1 0).look 0 =
      mergeOptList none (snapshot_contribs two_nodes two_partners 0 0)
    ∧ (commit_updates two_nodes (gossip_exchange two_nodes two_partners).1).getD 0 dummy =
      (two_nodes.getD 0 dummy).apply_diff ((gossip_exchange two_nodes two_partners).1 0) :=
  sim_round_two_phase two_nodes two_partners 0 0 (by decide)

/-! ### The voting schedule -/

theorem sum_map_range_const (m c : Nat) (f : Nat → Nat) (h : ∀ i, i < m → f i = c) :
    ((List.range m).map f).sum = m * c := by
  induction m with
  | zero => simp
  | succ m ih =>
    rw [List.range_succ, List.map_append, List.sum_append,
      ih fun i hi => h i (Nat.lt_succ_of_lt hi)]
    simp [h m (Nat.lt_succ_self m), Nat.succ_mul]

theorem schedule_get_range_map (f : Nat → Nat) (steps r : Nat) (hr : r < steps) :
    schedule_get ((List.range steps).map fun i => (i, f i)) r = some (f r) := by
  induction steps with
  | zero => omega
  | succ m ih =>
    rw [List.range_succ, List.map_append]
    unfold schedule_get
    rw [List.find?_append]
    by_cases h : r < m
    · have hthis := ih h
      unfold schedule_get at hthis
      rcases hf : List.find? (fun e => e.1 == r) ((List.range m).map fun i => (i, f i))
        with _ | e
      · rw [hf] at hthis; cases hthis
      · rw [hf] at hthis
        rw [Option.map_some'] at hthis
        rw [hf]
        show (some e.2 : Option Nat) = some (f r)
        exact hthis
    · have hrm : r = m := by omega
      subst hrm
      have hnone :
          List.find? (fun e => e.1 == r) ((List.range r).map fun i => (i, f i)) = none := by
        rw [List.find?_eq_none]
        intro e he
        simp only [List.mem_map, List.mem_range] at he
        obtain ⟨i, hi, rfl⟩ := he
        simp
        omega
      rw [hnone, Option.none_or, List.map_singleton]
      simp [List.find?]

/-- C5: for every `k` and `voting_steps ≥ 1`, the schedule values sum
exactly to `k`; each of the first `voting_steps - 1` rounds is assigned
`k / voting_steps` and the final round is assigned
`k - (voting_steps - 1) * (k / voting_steps)`; and for `voting_steps = 1`
the schedule is exactly the single entry `(0, k)`. -/
theorem construct_voting_schedule_sum (k steps : Nat) (h : 1 ≤ steps) :
    ((construct_voting_schedule k steps).map Prod.snd).sum = k
    ∧ (∀ i, i < steps - 1 →
        schedule_get (construct_voting_schedule k steps) i = some (k / steps))
    ∧ schedule_get (construct_voting_schedule k steps) (steps - 1) =
        some (k - (steps - 1) * (k / steps))
    ∧ construct_voting_schedule k 1 = [(0, k)] := by
  have hone : construct_voting_schedule k 1 = [(0, k)] := by
    unfold construct_voting_schedule
    rw [show List.range 1 = [0] from rfl, List.map_singleton]
    simp
  obtain ⟨m, rfl⟩ : ∃ m, steps = m + 1 := ⟨steps - 1, by omega⟩
  have hval : ∀ i, i < m + 1 →
      (if i = m + 1 - 1 then k - (m + 1 - 1) * (k / (m + 1)) else k / (m + 1)) =
        (if i = m then k - m * (k / (m + 1)) else k / (m + 1)) := by
    intro i _
    simp
  refine ⟨?_, ?_, ?_, ?_⟩
  · unfold construct_voting_schedule
    rw [List.map_map]
    have hq : (k / (m + 1)) * (m + 1) ≤ k := Nat.div_mul_le_self k (m + 1)
    have hmle : m * (k / (m + 1)) ≤ k := by
      calc m * (k / (m + 1)) ≤ (m + 1) * (k / (m + 1)) :=
            Nat.mul_le_mul_right _ (Nat.le_succ m)
        _ = (k / (m + 1)) * (m + 1) := Nat.mul_comm _ _
        _ ≤ k := hq
    rw [List.range_succ, List.map_append, List.sum_append]
    have hconst :
        ((List.range m).map
          (Prod.snd ∘ fun i =>
            (i, if i = m + 1 - 1 then k - (m + 1 - 1) * (k / (m + 1)) else k / (m + 1)))).sum
          = m * (k / (m + 1)) := by
      apply sum_map_range_const
      intro i hi
      have : i ≠ m := by omega
      simp [Function.comp, this]
    rw [hconst]
    simp
    omega
  · intro i hi
    unfold construct_voting_schedule
    rw [schedule_get_range_map _ _ _ (by omega)]
    have : i ≠ m := by omega
    simp [this]
  · unfold construct_voting_schedule
    rw [schedule_get_range_map _ _ _ (by omega)]
    simp
  · exact hone

/-- Closed instance of the C5 schedule theorem at `k = 7`,
`voting_steps = 3`. -/
theorem construct_voting_schedule_sum_witness :
    ((construct_voting_schedule 7 3).map Prod.snd).sum = 7
    ∧ (∀ i, i < 3 - 1 → schedule_get (construct_voting_schedule 7 3) i = some (7 / 3))
    ∧ schedule_get (construct_voting_schedule 7 3) (3 - 1) = some (7 - (3 - 1) * (7 / 3))
    ∧ construct_voting_schedule 7 1 = [(0, 7)] :=
  construct_voting_schedule_sum 7 3 (by decide)

/-! ### Partner selection -/

/-- C8: whenever `choose_partner(self_id, n, rng)` returns (under any fuel,
cursor position and random stream), its result lies in `[0, n)` and differs
from `self_id`, for every `n ≥ 2` and `self_id` in `[0, n)`. -/
theorem choose_partner_ne_self (our_id n : Nat) (draws : Nat → Nat)
    (fuel cursor p : Nat) (hn : 2 ≤ n) (hid : our_id < n)
    (h : choose_partner our_id n draws fuel cursor = some p) :
    p < n ∧ p ≠ our_id := by
  induction fuel generalizing cursor with
  | zero => cases h
  | succ fuel ih =>
    rw [choose_partner] at h
    by_cases hp : gen_range draws cursor n ≠ our_id
    · rw [if_pos hp] at h
      injection h with hpe
      subst hpe
      exact ⟨Nat.mod_lt _ (by omega), hp⟩
    · rw [if_neg hp] at h
      exact ih (cursor + 1) h

/-- Closed instance of the C8 partner theorem: `n = 2`, `self_id = 0`,
identity stream, where the loop returns partner 1. -/
theorem choose_partner_ne_self_witness : (1 : Nat) < 2 ∧ (1 : Nat) ≠ 0 :=
  choose_partner_ne_self 0 2 (fun i => i) 2 1 1 (by decide) (by decide) (by decide)

/-! ### Growth of voter sets -/

theorem vote_for_getSet_subset (nd : Node) (v p : Nat) :
    nd.votes.getSet p ⊆ (nd.vote_for v).votes.getSet p := by
  rw [Node.vote_for_getSet]
  split
  case isTrue h => rw [h]; exact Finset.subset_insert _ _
  case isFalse h => exact Finset.Subset.refl _

theorem apply_diff_getSet_subset (nd : Node) (d : NatSetMap) (p : Nat) :
    nd.votes.getSet p ⊆ (nd.apply_diff d).votes.getSet p := by
  rw [Node.apply_diff_getSet]
  exact Finset.subset_union_left

theorem has_quorum_for_vote_for {nd : Node} {p : Nat} (v : Nat)
    (h : nd.has_quorum_for p = true) : (nd.vote_for v).has_quorum_for p = true := by
  rw [Node.has_quorum_for_iff] at h ⊢
  obtain ⟨vs, hvs, hcard⟩ := h
  rw [Node.vote_for_look, Node.vote_for_num_nodes]
  by_cases hp : p = v
  · refine ⟨insert nd.id (nd.votes.getSet v), by rw [if_pos hp], ?_⟩
    have hget : nd.votes.getSet v = vs := by
      rw [← hp, NatSetMap.getSet, hvs]
      rfl
    have hle : vs.card ≤ (insert nd.id (nd.votes.getSet v)).card := by
      rw [hget]
      exact Finset.card_le_card (Finset.subset_insert _ _)
    omega
  · exact ⟨vs, by rw [if_neg hp]; exact hvs, hcard⟩

theorem has_quorum_for_apply_diff {nd : Node} {p : Nat} (d : NatSetMap)
    (h : nd.has_quorum_for p = true) : (nd.apply_diff d).has_quorum_for p = true := by
  rw [Node.has_quorum_for_iff] at h ⊢
  obtain ⟨vs, hvs, hcard⟩ := h
  rw [Node.apply_diff_look, Node.apply_diff_num_nodes]
  rcases hd : d.look p with _ | ds
  · exact ⟨vs, by simp [mergeOpt, hvs], hcard⟩
  · refine ⟨vs ∪ ds, by simp [mergeOpt, hvs, NatSetMap.getSet], ?_⟩
    have hle : vs.card ≤ (vs ∪ ds).card :=
      Finset.card_le_card Finset.subset_union_left
    omega

/-! ### Shape lemmas for the simulation loop -/

theorem activate_cons_succ (nd : Node) (rest : List Node) (q : Nat) :
    activate (nd :: rest) (q + 1) =
      if nd.has_voted_for 0 then nd :: activate rest (q + 1)
      else nd.vote_for 0 :: activate rest q := rfl

theorem activate_length (l : List Node) : ∀ m, (activate l m).length = l.length := by
  induction l with
  | nil => intro m; cases m <;> rfl
  | cons nd rest ih =>
    intro m
    cases m with
    | zero => rfl
    | succ q =>
      rw [activate_cons_succ]
      split <;> simp [ih]

theorem activate_getD (l : List Node) : ∀ m j,
    (activate l m).getD j dummy = l.getD j dummy ∨
      (activate l m).getD j dummy = (l.getD j dummy).vote_for 0 := by
  induction l with
  | nil => intro m j; left; cases m <;> rfl
  | cons nd rest ih =>
    intro m j
    cases m with
    | zero => left; rfl
    | succ q =>
      rw [activate_cons_succ]
      split
      · cases j with
        | zero => left; rfl
        | succ j =>
          rw [List.getD_cons_succ, List.getD_cons_succ]
          exact ih (q + 1) j
      · cases j with
        | zero => right; rfl
        | succ j =>
          rw [List.getD_cons_succ, List.getD_cons_succ]
          exact ih q j

theorem commit_updates_length (nodes : List Node) (u : Updates) :
    (commit_updates nodes u).length = nodes.length := by
  simp [commit_updates]

theorem getD_eq_dummy_of_le {l : List Node} {j : Nat} (h : l.length ≤ j) :
    l.getD j dummy = dummy := by
  rw [List.getD_eq_getElem?_getD, List.getElem?_eq_none h]
  rfl

/-- The post-activation snapshot of a round. -/
def round_snapshot (sched : List (Nat × Nat)) (s : SimState) : List Node :=
  match schedule_get sched s.num_iterations with
  | some quota => activate s.nodes quota
  | none => s.nodes

theorem sim_round_nodes_eq (sched : List (Nat × Nat)) (partners : Nat → Nat)
    (s : SimState) :
    (sim_round sched partners s).nodes =
      commit_updates (round_snapshot sched s)
        (gossip_exchange (round_snapshot sched s) partners).1 := by
  unfold sim_round round_snapshot
  rcases schedule_get sched s.num_iterations with _ | q <;> rfl

theorem round_snapshot_length (sched : List (Nat × Nat)) (s : SimState) :
    (round_snapshot sched s).length = s.nodes.length := by
  unfold round_snapshot
  rcases schedule_get sched s.num_iterations with _ | q
  · rfl
  · exact activate_length _ _

theorem sim_round_nodes_length (sched : List (Nat × Nat)) (partners : Nat → Nat)
    (s : SimState) :
    (sim_round sched partners s).nodes.length = s.nodes.length := by
  rw [sim_round_nodes_eq, commit_updates_length, round_snapshot_length]

theorem run_nodes_length (params : Params) (pseq : Nat → Nat → Nat) :
    ∀ t, (run_sim_state params pseq t).nodes.length = params.n := by
  intro t
  induction t with
  | zero => simp [run_sim_state, init_nodes]
  | succ t ih => rw [run_sim_state, sim_round_nodes_length, ih]

theorem run_num_iterations (params : Params) (pseq : Nat → Nat → Nat) :
    ∀ t, (run_sim_state params pseq t).num_iterations = t := by
  intro t
  induction t with
  | zero => rfl
  | succ t ih =>
    show (sim_round _ _ _).num_iterations = t + 1
    unfold sim_round
    simp [ih]

theorem round_snapshot_getSet_subset (sched : List (Nat × Nat)) (s : SimState)
    (j p : Nat) :
    (s.nodes.getD j dummy).votes.getSet p ⊆
      ((round_snapshot sched s).getD j dummy).votes.getSet p := by
  unfold round_snapshot
  rcases schedule_get sched s.num_iterations with _ | q
  · exact Finset.Subset.refl _
  · rcases activate_getD s.nodes q j with h | h
    · rw [h]
    · rw [h]
      exact vote_for_getSet_subset _ _ _

theorem sim_round_getSet_subset (sched : List (Nat × Nat)) (partners : Nat → Nat)
    (s : SimState) (j p : Nat) :
    (s.nodes.getD j dummy).votes.getSet p ⊆
      ((sim_round sched partners s).nodes.getD j dummy).votes.getSet p := by
  rw [sim_round_nodes_eq]
  by_cases hj : j < (round_snapshot sched s).length
  · rw [commit_updates_getD _ _ _ hj, Node.apply_diff_getSet]
    exact (round_snapshot_getSet_subset sched s j p).trans Finset.subset_union_left
  · push_neg at hj
    have hj2 : s.nodes.length ≤ j := by
      rw [round_snapshot_length sched s] at hj
      exact hj
    rw [getD_eq_dummy_of_le (show (commit_updates _ _).length ≤ j by
          rw [commit_updates_length]; exact hj),
        getD_eq_dummy_of_le hj2]

/-- C4: voter sets only grow: `vote_for` and `apply_diff` only insert into a
proposal's voter set, once `has_quorum_for` holds it continues to hold after
any further `vote_for` or `apply_diff`, and across simulation rounds every
node's voter-set size is non-decreasing. -/
theorem voter_sets_monotone (nd : Node) (v p : Nat) (d : NatSetMap)
    (params : Params) (pseq : Nat → Nat → Nat) (t j : Nat) :
    nd.votes.getSet p ⊆ (nd.vote_for v).votes.getSet p
    ∧ nd.votes.getSet p ⊆ (nd.apply_diff d).votes.getSet p
    ∧ (nd.has_quorum_for p = true → (nd.vote_for v).has_quorum_for p = true)
    ∧ (nd.has_quorum_for p = true → (nd.apply_diff d).has_quorum_for p = true)
    ∧ (((run_sim_state params pseq t).nodes.getD j dummy).votes.getSet p).card ≤
        (((run_sim_state params pseq (t + 1)).nodes.getD j dummy).votes.getSet p).card :=
  ⟨vote_for_getSet_subset nd v p,
   apply_diff_getSet_subset nd d p,
   has_quorum_for_vote_for v,
   has_quorum_for_apply_diff d,
   Finset.card_le_card (sim_round_getSet_subset _ _ _ j p)⟩

/-- Closed instance of C4: a node holding quorum keeps it through a further
`vote_for` and `apply_diff`, at concrete inputs. -/
theorem voter_sets_monotone_witness :
    ((Node.new 0 1).vote_for 0).has_quorum_for 0 = true
    ∧ (((Node.new 0 1).vote_for 0).vote_for 1).has_quorum_for 0 = true
    ∧ (((Node.new 0 1).vote_for 0).apply_diff NatSetMap.empty).has_quorum_for 0 = true :=
  ⟨by decide,
   (voter_sets_monotone ((Node.new 0 1).vote_for 0) 1 0 NatSetMap.empty
      ⟨1, 1, 1⟩ (fun _ _ => 0) 0 0).2.2.1 (by decide),
   (voter_sets_monotone ((Node.new 0 1).vote_for 0) 1 0 NatSetMap.empty
      ⟨1, 1, 1⟩ (fun _ _ => 0) 0 0).2.2.2.1 (by decide)⟩

/-! ### Divergence of the n = 5, k = 1 configuration -/

/-- All voter sets of all nodes are contained in `S`. -/
def SetsBound (S : Finset Nat) (nodes : List Node) : Prop :=
  ∀ nd ∈ nodes, ∀ p, nd.votes.getSet p ⊆ S

/-- All nodes carry universe size `N`. -/
def NumNodesBound (N : Nat) (nodes : List Node) : Prop :=
  ∀ nd ∈ nodes, nd.num_nodes = N

theorem getD_mem_of_lt {l : List Node} {i : Nat} (h : i < l.length) :
    l.getD i dummy ∈ l := by
  rw [List.getD_eq_getElem?_getD, List.getElem?_eq_getElem h]
  exact List.getElem_mem h

theorem SetsBound.getD {S : Finset Nat} {nodes : List Node}
    (h : SetsBound S nodes) (i p : Nat) :
    (nodes.getD i dummy).votes.getSet p ⊆ S := by
  by_cases hi : i < nodes.length
  · exact h _ (getD_mem_of_lt hi) p
  · push_neg at hi
    rw [getD_eq_dummy_of_le hi]
    show (∅ : Finset Nat) ⊆ S
    exact Finset.empty_subset S

theorem mergeOptList_bound (S : Finset Nat) :
    ∀ (l : List (Option (Finset Nat))) (o0 : Option (Finset Nat)),
      (∀ s, o0 = some s → s ⊆ S) →
      (∀ o ∈ l, ∀ s, o = some s → s ⊆ S) →
      ∀ s, mergeOptList o0 l = some s → s ⊆ S := by
  intro l
  induction l with
  | nil => intro o0 h0 _ s hs; exact h0 s hs
  | cons a l ih =>
    intro o0 h0 hl s hs
    refine ih (mergeOpt o0 a) ?_ (fun o ho => hl o (List.mem_cons_of_mem _ ho)) s hs
    intro u hu
    rcases ha : a with _ | vs
    · rw [ha] at hu
      exact h0 u hu
    · rw [ha] at hu
      unfold mergeOpt at hu
      injection hu with hu
      subst hu
      have hvs : vs ⊆ S := hl a (List.mem_cons_self _ _) vs ha
      rcases ho : o0 with _ | w
      · simp [hvs]
      · simp only [Option.getD_some]
        exact Finset.union_subset (h0 w ho) hvs

theorem snapshot_contribs_bound {S : Finset Nat} {nodes : List Node}
    (partners : Nat → Nat) (j p : Nat) (h : SetsBound S nodes) :
    ∀ o ∈ snapshot_contribs nodes partners j p, ∀ s, o = some s → s ⊆ S := by
  intro o ho s hs
  unfold snapshot_contribs at ho
  rw [List.mem_flatMap] at ho
  obtain ⟨i, _, hi⟩ := ho
  have hone : ∀ (a b : Nat) (c : Prop) [Decidable c],
      o = (if c then push_entry (nodes.getD a dummy) (nodes.getD b dummy) p else none) →
      s ⊆ S := by
    intro a b c hc ho2
    rw [ho2] at hs
    split at hs
    · exact (push_entry_subset hs).trans (h.getD a p)
    · cases hs
  rcases List.mem_pair.mp hi with hcase | hcase
  · exact hone (partners i) i _ hcase
  · exact hone i (partners i) _ hcase

theorem gossip_exchange_bound {S : Finset Nat} {nodes : List Node}
    (partners : Nat → Nat) (h : SetsBound S nodes) (j p : Nat) :
    ∀ s, ((gossip_exchange nodes partners).1 j).look p = some s → s ⊆ S := by
  intro s hs
  rw [gossip_exchange_look] at hs
  exact mergeOptList_bound S _ none (fun u hu => by cases hu)
    (snapshot_contribs_bound partners j p h) s hs

theorem commit_exchange_bound (S : Finset Nat) (N : Nat) (nodes : List Node)
    (partners : Nat → Nat) (hS : SetsBound S nodes) (hN : NumNodesBound N nodes) :
    SetsBound S (commit_updates nodes (gossip_exchange nodes partners).1)
    ∧ NumNodesBound N (commit_updates nodes (gossip_exchange nodes partners).1) := by
  have hmem : ∀ nd ∈ commit_updates nodes (gossip_exchange nodes partners).1,
      ∃ i, i < nodes.length ∧
        nd = (nodes.getD i dummy).apply_diff ((gossip_exchange nodes partners).1 i) := by
    intro nd hnd
    unfold commit_updates at hnd
    rw [List.mem_map] at hnd
    obtain ⟨i, hi, rfl⟩ := hnd
    rw [List.mem_range] at hi
    exact ⟨i, hi, rfl⟩
  constructor
  · intro nd hnd p
    obtain ⟨i, hi, rfl⟩ := hmem nd hnd
    rw [Node.apply_diff_getSet]
    refine Finset.union_subset (hS.getD i p) ?_
    rcases hu : ((gossip_exchange nodes partners).1 i).look p with _ | s
    · show ((((gossip_exchange nodes partners).1 i).look p).getD ∅ : Finset Nat) ⊆ S
      rw [hu]
      exact Finset.empty_subset S
    · show ((((gossip_exchange nodes partners).1 i).look p).getD ∅ : Finset Nat) ⊆ S
      rw [hu]
      exact gossip_exchange_bound partners hS i p s hu
  · intro nd hnd
    obtain ⟨i, hi, rfl⟩ := hmem nd hnd
    rw [Node.apply_diff_num_nodes]
    exact hN _ (getD_mem_of_lt hi)

theorem sched11_zero : schedule_get (construct_voting_schedule 1 1) 0 = some 1 := by
  decide

theorem sched11_succ (t : Nat) :
    schedule_get (construct_voting_schedule 1 1) (t + 1) = none := rfl

theorem activate_init5 :
    activate (init_nodes 5) 1 =
      (Node.new 0 5).vote_for 0 ::
        [Node.new 1 5, Node.new 2 5, Node.new 3 5, Node.new 4 5] := rfl

theorem init5_bound :
    SetsBound {0} (activate (init_nodes 5) 1)
    ∧ NumNodesBound 5 (activate (init_nodes 5) 1) := by
  rw [activate_init5]
  have hfresh : ∀ i q : Nat, (Node.new i 5).votes.getSet q ⊆ ({0} : Finset Nat) := by
    intro i q
    rw [Node.new_getSet]
    exact Finset.empty_subset _
  constructor
  · intro nd hnd p
    fin_cases hnd
    · rw [Node.vote_for_getSet]
      split
      · rw [Node.new_getSet]
        intro x hx
        simpa using hx
      · exact hfresh 0 p
    · exact hfresh 1 p
    · exact hfresh 2 p
    · exact hfresh 3 p
    · exact hfresh 4 p
  · intro nd hnd
    fin_cases hnd <;> rfl

theorem n5_invariant (pseq : Nat → Nat → Nat) :
    ∀ t, SetsBound {0} ((run_sim_state ⟨5, 1, 1⟩ pseq (t + 1)).nodes)
        ∧ NumNodesBound 5 ((run_sim_state ⟨5, 1, 1⟩ pseq (t + 1)).nodes) := by
  intro t
  induction t with
  | zero =>
    rw [run_sim_state, sim_round_nodes_eq]
    have hsnap : round_snapshot (construct_voting_schedule 1 1)
        (run_sim_state ⟨5, 1, 1⟩ pseq 0) = activate (init_nodes 5) 1 := by
      unfold round_snapshot
      rw [show (run_sim_state ⟨5, 1, 1⟩ pseq 0).num_iterations = 0 from rfl, sched11_zero]
      rfl
    rw [hsnap]

    exact commit_exchange_bound _ _ _ _ init5_bound.1 init5_bound.2
  | succ t ih =>
    rw [run_sim_state, sim_round_nodes_eq]
    have hsnap : round_snapshot (construct_voting_schedule 1 1)
        (run_sim_state ⟨5, 1, 1⟩ pseq (t + 1)) =
          (run_sim_state ⟨5, 1, 1⟩ pseq (t + 1)).nodes := by
      unfold round_snapshot
      rw [run_num_iterations, sched11_succ]
    rw [hsnap]
    exact commit_exchange_bound _ _ _ _ ih.1 ih.2

/-- C1: the code performs no parameter validation; for the invalid
configuration `n = 5, k = 1, voting_steps = 1` the loop guard of
`run_simulation` (all nodes hold quorum on proposal 0) is false after every
number of iterations, for every possible random partner sequence, so the
simulation loop never terminates instead of the parameters being rejected. -/
theorem run_simulation_n5_k1_never_converges (pseq : Nat → Nat → Nat) (t : Nat) :
    all_quorum ((run_sim_state ⟨5, 1, 1⟩ pseq t).nodes) = false := by
  cases t with
  | zero => rfl
  | succ t =>
    obtain ⟨hS, hN⟩ := n5_invariant pseq t
    by_contra hq
    rw [Bool.not_eq_false, all_quorum, List.all_eq_true] at hq
    have hlen : (run_sim_state ⟨5, 1, 1⟩ pseq (t + 1)).nodes.length = 5 :=
      run_nodes_length _ _ _
    have hmem : (run_sim_state ⟨5, 1, 1⟩ pseq (t + 1)).nodes.getD 0 dummy ∈
        (run_sim_state ⟨5, 1, 1⟩ pseq (t + 1)).nodes :=
      getD_mem_of_lt (by omega)
    have hqd := hq _ hmem
    rw [Node.has_quorum_for_iff] at hqd
    obtain ⟨vs, hvs, hcard⟩ := hqd
    have hsub : vs ⊆ {0} := by
      have hb := hS _ hmem 0
      rw [NatSetMap.getSet, hvs] at hb
      exact hb
    have hle : vs.card ≤ 1 := by
      have := Finset.card_le_card hsub
      simpa using this
    rw [hN _ hmem] at hcard
    omega

/-! ### Statistics at termination -/

theorem total_votes_collected_eq (nodes : List Node)
    (h : ∀ nd ∈ nodes, (nd.votes.look 0).isSome = true) :
    total_votes_collected nodes =
      some ((nodes.map fun nd => (nd.votes.getSet 0).card).sum) := by
  induction nodes with
  | nil => rfl
  | cons nd rest ih =>
    have h0 := h nd (List.mem_cons_self _ _)
    rcases Option.isSome_iff_exists.mp h0 with ⟨vs, hvs⟩
    have hr := ih fun x hx => h x (List.mem_cons_of_mem _ hx)
    unfold total_votes_collected
    rw [hvs, hr, List.map_cons, List.sum_cons]
    have hget : (nd.votes.getSet 0) = vs := by
      rw [NatSetMap.getSet, hvs]
      rfl
    rw [hget]

/-- C10: if the simulation loop terminates then at the terminating iteration
every node holds quorum on proposal 0, every node's vote map therefore has
an entry for proposal 0, so the statistics sum that indexes that entry never
hits a missing key, and `average_votes_held` is exactly the per-node sum of
proposal-0 voter-set sizes divided by `n`. -/
theorem sim_termination_stats_safe (params : Params) (pseq : Nat → Nat → Nat)
    (h : sim_terminates params pseq) :
    ∃ t, all_quorum ((run_sim_state params pseq t).nodes) = true
      ∧ (∀ nd ∈ (run_sim_state params pseq t).nodes, (nd.votes.look 0).isSome = true)
      ∧ total_votes_collected ((run_sim_state params pseq t).nodes) =
          some (((run_sim_state params pseq t).nodes.map
            fun nd => (nd.votes.getSet 0).card).sum)
      ∧ average_votes_held ((run_sim_state params pseq t).nodes) params.n =
          some (((((run_sim_state params pseq t).nodes.map
            fun nd => (nd.votes.getSet 0).card).sum : Nat) : ℚ) / (params.n : ℚ)) := by
  obtain ⟨t, ht⟩ := h
  have hall : ∀ nd ∈ (run_sim_state params pseq t).nodes, nd.has_quorum_for 0 = true := by
    rw [all_quorum, List.all_eq_true] at ht
    exact ht
  have hsome : ∀ nd ∈ (run_sim_state params pseq t).nodes,
      (nd.votes.look 0).isSome = true :=
    fun nd hnd => Node.has_quorum_for_isSome (hall nd hnd)
  have htot := total_votes_collected_eq _ hsome
  refine ⟨t, ht, hsome, htot, ?_⟩
  rw [average_votes_held, htot]
  rfl

/-- Closed instance of C10: the run `n = 2, k = 2, voting_steps = 1` with
partners `0 ↔ 1` terminates after one round, and the statistics are
well-defined there. -/
theorem sim_termination_stats_safe_witness :
    ∃ t, all_quorum ((run_sim_state ⟨2, 2, 1⟩ (fun _ i => 1 - i) t).nodes) = true
      ∧ (∀ nd ∈ (run_sim_state ⟨2, 2, 1⟩ (fun _ i => 1 - i) t).nodes,
          (nd.votes.look 0).isSome = true)
      ∧ total_votes_collected ((run_sim_state ⟨2, 2, 1⟩ (fun _ i => 1 - i) t).nodes) =
          some (((run_sim_state ⟨2, 2, 1⟩ (fun _ i => 1 - i) t).nodes.map
            fun nd => (nd.votes.getSet 0).card).sum)
      ∧ average_votes_held ((run_sim_state ⟨2, 2, 1⟩ (fun _ i => 1 - i) t).nodes)
          (Params.mk 2 2 1).n =
          some (((((run_sim_state ⟨2, 2, 1⟩ (fun _ i => 1 - i) t).nodes.map
            fun nd => (nd.votes.getSet 0).card).sum : Nat) : ℚ) /
              ((Params.mk 2 2 1).n : ℚ)) :=
  sim_termination_stats_safe ⟨2, 2, 1⟩ (fun _ i => 1 - i) ⟨1, by decide⟩

end Gossip
